import Mathlib

/-!
spoiler-bot: command dispatch, spoiler splitting and masking

A shallow embedding of `spoilerbot.go`.

* A Go string that is valid UTF-8 is modelled by the list of its code points
  (`GoString`).  Message texts reach the handler from a JSON decoder, which only
  produces valid UTF-8.  Whenever the program measures or slices a string by
  bytes (`len`, `s[a:b]`) the model goes through the UTF-8 encoding (`utf8`).
* Run-time panics (index out of range, nil dereference) are modelled by `none`
  or by the `panicked` flag of an `Outcome`.
* Calls to the chat service are recorded as a trace of `Action`s.
* Library behaviour that lives outside the repository (the Unicode lower-case
  table, the HTTP exchange, the JSON decoder, avatar URLs, byte humanisation)
  is a field of `World`.
-/

namespace SpoilerBot

/-! ## Strings -/

/-- A valid UTF-8 Go string, as the list of its code points. -/
abbrev GoString := List Char

/-- A raw byte string. -/
abbrev Bytes := List Nat

/-- UTF-8 encoding of one code point. -/
def utf8Char (c : Char) : Bytes :=
  let n := c.toNat
  if n < 0x80 then [n]
  else if n < 0x800 then [0xC0 + n / 0x40, 0x80 + n % 0x40]
  else if n < 0x10000 then [0xE0 + n / 0x1000, 0x80 + (n / 0x40) % 0x40, 0x80 + n % 0x40]
  else [0xF0 + n / 0x40000, 0x80 + (n / 0x1000) % 0x40, 0x80 + (n / 0x40) % 0x40, 0x80 + n % 0x40]

/-- The bytes of a Go string. -/
def utf8 : GoString → Bytes
  | [] => []
  | c :: cs => utf8Char c ++ utf8 cs

/-- Go `len(s)`: the length in bytes. -/
def len (s : GoString) : Nat := (utf8 s).length

/-- Go `strings.Index(s, substr)`: position of the first occurrence of `substr`
(counted in code points), `none` for Go's `-1`. -/
def Index : GoString → GoString → Option Nat
  | [], sub => if sub = [] then some 0 else none
  | c :: cs, sub =>
    if sub.isPrefixOf (c :: cs) then some 0
    else (Index cs sub).map (· + 1)

/-- Go `strings.Replace(s, old, new, n)` for a non-empty `old` and `n ≥ 0`: the first
`n` non-overlapping occurrences of `old` are replaced by `new`. -/
def Replace (s old new : GoString) : Nat → GoString
  | 0 => s
  | n + 1 =>
    match Index s old with
    | none => s
    | some i => s.take i ++ new ++ Replace (s.drop (i + old.length)) old new n

/-- Go `strings.SplitN(s, sep, n)` for a non-empty `sep` and `n ≥ 0`: at most `n`
pieces, the last one being the unsplit remainder. -/
def SplitN (s sep : GoString) : Nat → List GoString
  | 0 => []
  | 1 => [s]
  | n + 2 =>
    match Index s sep with
    | none => [s]
    | some i => s.take i :: SplitN (s.drop (i + sep.length)) sep (n + 1)

/-- Go `unicode.IsSpace`. -/
def isSpace (c : Char) : Bool :=
  let n := c.toNat
  n = 0x09 || n = 0x0A || n = 0x0B || n = 0x0C || n = 0x0D || n = 0x20 ||
  n = 0x85 || n = 0xA0 || n = 0x1680 || (0x2000 ≤ n && n ≤ 0x200A) ||
  n = 0x2028 || n = 0x2029 || n = 0x202F || n = 0x205F || n = 0x3000

/-- Go `strings.TrimSpace`. -/
def TrimSpace (s : GoString) : GoString :=
  ((s.dropWhile isSpace).reverse.dropWhile isSpace).reverse

/-- Go `strings.Join(elems, sep)`. -/
def Join : List GoString → GoString → GoString
  | [], _ => []
  | [a], _ => a
  | a :: b :: rest, sep => a ++ sep ++ Join (b :: rest) sep

/-- Lower-casing of one ASCII byte, as in the ASCII fast path of `strings.ToLower`. -/
def asciiLower (c : Char) : Char :=
  if 'A'.toNat ≤ c.toNat ∧ c.toNat ≤ 'Z'.toNat then Char.ofNat (c.toNat + ('a'.toNat - 'A'.toNat)) else c

/-- Is the code point below `utf8.RuneSelf`? -/
def isASCII (c : Char) : Bool := decide (c.toNat < 0x80)

/-- Go `strings.ToLower`: ASCII-only strings are lowered bytewise; any other string is
mapped through `unicode.ToLower`, the table `unicodeToLower`. -/
def ToLower (unicodeToLower : Char → Char) (s : GoString) : GoString :=
  if s.all isASCII then s.map asciiLower else s.map unicodeToLower

/-! ## Regular expressions -/

/-- Regular expressions, as far as the two patterns of the program need them. -/
inductive Regex where
  | empty : Regex
  | eps : Regex
  | chr : Char → Regex
  | dot : Regex
  | alt : Regex → Regex → Regex
  | seq : Regex → Regex → Regex
  | star : Regex → Regex
  deriving DecidableEq, Repr

namespace Regex

/-- One or more repetitions: `r+`. -/
def plus (r : Regex) : Regex := seq r (star r)

/-- A literal string. -/
def str : GoString → Regex
  | [] => eps
  | c :: cs => seq (chr c) (str cs)

/-- Does the expression accept the empty string? -/
def nullable : Regex → Bool
  | empty => false
  | eps => true
  | chr _ => false
  | dot => false
  | alt a b => nullable a || nullable b
  | seq a b => nullable a && nullable b
  | star _ => true

/-- Brzozowski derivative by one code point.  `.` accepts every code point but
the line feed (no `s` flag is set). -/
def deriv : Regex → Char → Regex
  | empty, _ => empty
  | eps, _ => empty
  | chr a, c => if a = c then eps else empty
  | dot, c => if c = '\n' then empty else eps
  | alt a b, c => alt (deriv a c) (deriv b c)
  | seq a b, c => if nullable a then alt (seq (deriv a c) b) (deriv b c) else seq (deriv a c) b
  | star a, c => seq (deriv a c) (star a)

/-- Does some prefix of `s` belong to the language of `r`? -/
def matchPrefix : Regex → GoString → Bool
  | r, [] => nullable r
  | r, c :: cs => nullable r || matchPrefix (deriv r c) cs

end Regex

/-- Go `regexp.MatchString` for a pattern `^r`: the match has to start at the
beginning of the text and may end anywhere. -/
def MatchString (r : Regex) (s : GoString) : Bool := r.matchPrefix s

/-- The pattern of line 111 after its `^`: `!(sp|cw) (.+)\|(.+)` (has warning). -/
def cw : Regex :=
  .seq (.chr '!') (.seq (.alt (.str "sp".toList) (.str "cw".toList))
    (.seq (.chr ' ') (.seq (.plus .dot) (.seq (.chr '|') (.plus .dot)))))

/-- The pattern of line 112 after its `^`: `!(sp|cw) (.+)` (no warning). -/
def nw : Regex :=
  .seq (.chr '!') (.seq (.alt (.str "sp".toList) (.str "cw".toList))
    (.seq (.chr ' ') (.plus .dot)))

/-! ## Data model -/

/-- Toml config. -/
structure config where
  Token : GoString
  ClientID : GoString
  BotName : GoString
  EmbedColor : Int

/-- The nested `paste` object of the paste service's JSON response. -/
structure pasteBody where
  ID : GoString := []
  Link : GoString := []
  Raw : GoString := []
  LangCode : GoString := []
  Formatted : GoString := []
  ExpirationDate : Nat := 0

/-- Struct for paste json response. -/
structure paste where
  Paste : pasteBody := {}
  Status : GoString := []

/-- A chat user (`discordgo.User`). -/
structure User where
  ID : GoString
  Username : GoString
  Avatar : GoString

/-- A guild of the session cache; only the sizes of its lists are read. -/
structure Guild where
  Members : List User
  Channels : List GoString

/-- The part of `discordgo.Session` that the handlers read: `s.State.User` and
`s.State.Ready.Guilds`. -/
structure Session where
  StateUser : User
  Guilds : List Guild

/-- The event `discordgo.MessageCreate`. -/
structure MessageCreate where
  ID : GoString
  ChannelID : GoString
  Content : GoString
  Author : User

/-- The author block of an embed. -/
structure MessageEmbedAuthor where
  Name : GoString
  IconURL : GoString
  URL : GoString := []
  deriving DecidableEq

/-- One display field of an embed. -/
structure MessageEmbedField where
  Name : GoString
  Value : GoString
  Inline : Bool
  deriving DecidableEq

/-- A rich message.  The description is kept as raw bytes, because it may be
the result of slicing a string by byte offsets. -/
structure MessageEmbed where
  Author : MessageEmbedAuthor
  Color : Int
  Title : GoString := []
  Description : Bytes := []
  URL : GoString := []
  Fields : List MessageEmbedField := []
  deriving DecidableEq

/-- An HTTP request as built by `pasteURL`. -/
structure Request where
  Method : GoString
  URL : GoString
  Form : List (GoString × GoString)

/-- An HTTP response; `Body` is what `ioutil.ReadAll` returns for it. -/
structure Response where
  Body : GoString

/-- Behaviour of the libraries and of the outside world. -/
structure World where
  /-- The table `unicode.ToLower`. -/
  unicodeToLower : Char → Char
  /-- The call `client.Do`: `none` is the result `(nil, err)` of a failed request. -/
  clientDo : Request → Option Response
  /-- The value of `p` after `json.Unmarshal(body, &p)`; the error result is discarded
  by the caller. -/
  jsonUnmarshal : GoString → paste → paste
  /-- The method `User.AvatarURL(size)`. -/
  avatarURL : User → GoString → GoString
  /-- The function `humanize.Bytes`. -/
  humanizeBytes : Nat → GoString
  /-- The constant `discordgo.VERSION`. -/
  discordgoVERSION : GoString
  /-- The value of `runtime.Version()`. -/
  runtimeVersion : GoString
  /-- The field `Alloc` of `runtime.MemStats`. -/
  memAlloc : Nat
  /-- The field `Sys` of `runtime.MemStats`. -/
  memSys : Nat
  /-- The value of `runtime.NumGoroutine()`. -/
  numGoroutine : Nat

/-- State of the process-wide random generator: the stream of its future raw outputs. -/
abbrev Rand := Nat → Nat

/-- Go `rand.Intn(n)`: a number in `[0, n)`, and a panic for `n ≤ 0`. -/
def Intn (g : Rand) (n : Nat) : Option (Nat × Rand) :=
  if n = 0 then none else some (g 0 % n, fun i => g (i + 1))

/-- A call to the chat service. -/
inductive Action where
  | ChannelMessageDelete (channelID messageID : GoString)
  | ChannelMessageSend (channelID content : GoString)
  | ChannelMessageSendEmbed (channelID : GoString) (embed : MessageEmbed)
  deriving DecidableEq

/-- What running a piece of the handler did: the calls made, in order, and whether
it ended in a panic. -/
structure Outcome where
  actions : List Action
  panicked : Bool
  deriving DecidableEq

/-- Sequential composition: nothing runs after a panic. -/
def Outcome.andThen (a b : Outcome) : Outcome :=
  if a.panicked then a else ⟨a.actions ++ b.actions, b.panicked⟩

/-- Is the action an outbound message (plain or embed)? -/
def Action.isReply : Action → Bool
  | .ChannelMessageDelete _ _ => false
  | .ChannelMessageSend _ _ => true
  | .ChannelMessageSendEmbed _ _ => true

/-! ## The program -/

/-- Lines 45-62. -/
def pasteURL (w : World) (title text : GoString) : Option GoString :=
  let form : List (GoString × GoString) :=
    [("title".toList, title), ("lang".toList, "markdown".toList), ("paste".toList, text)]
  let request : Request := ⟨"POST".toList, "https://mnn.im/c".toList, form⟩
  match w.clientDo request with
  | none => none
  | some response =>
    let body := response.Body
    let p : paste := w.jsonUnmarshal body {}
    some p.Paste.Formatted

/-- The palette of line 260. -/
def boxes : List GoString :=
  ["█", "▓", "▒", "░", "█", "▓", "▒", "░", "█", "▓", "▒", "░", "<", ">", "/"].map String.toList

/-- Lines 255-264. -/
def shuffleChar (c : Char) (g : Rand) : Option (GoString × Rand) :=
  if c = ' ' then some (" ".toList, g)
  else
    match Intn g boxes.length with
    | none => none
    | some (n, g') =>
      match boxes[n]? with
      | none => none
      | some b => some (b, g')

/-- The loop of lines 268-270, with `shuffled` as accumulator. -/
def shuffleLoop : GoString → List GoString → Rand → Option (List GoString × Rand)
  | [], shuffled, g => some (shuffled, g)
  | rune :: rest, shuffled, g =>
    match shuffleChar rune g with
    | none => none
    | some (x, g') => shuffleLoop rest (shuffled ++ [x]) g'

/-- Lines 266-273. -/
def shuffle (s : GoString) (g : Rand) : Option (GoString × Rand) :=
  match shuffleLoop s [] g with
  | none => none
  | some (shuffled, g') => some (Join shuffled [], g')

/-- Lines 135-137 of `cmdSpoiler`: the message text with the command removed. -/
def spoilerText (content : GoString) : GoString :=
  Replace (Replace content "!sp ".toList [] 1) "!cw ".toList [] 1

/-- Lines 135-150 of `cmdSpoiler`: the pair `(warning, content)`. -/
def spoilerParts (content : GoString) (hasWarn : Bool) : Option (GoString × GoString) :=
  let spoiler := spoilerText content
  if hasWarn then
    let split := SplitN spoiler "|".toList 2
    match split[0]?, split[1]? with
    | some s0, some s1 => some (s0, TrimSpace s1)
    | _, _ => none
  else
    some ("Content Warning".toList, spoiler)

/-- Lines 153-155 of `cmdSpoiler`: the embed description made from the masked text. -/
def description (rotated : GoString) : Bytes :=
  if len rotated > 200 then (utf8 rotated).take 200 ++ utf8 " ...".toList
  else utf8 rotated

/-- Lines 132-170. -/
def cmdSpoiler (w : World) (g : Rand) (m : MessageCreate) (c : config) (hasWarn : Bool) :
    Outcome :=
  let deleted := [Action.ChannelMessageDelete m.ChannelID m.ID]
  match spoilerParts m.Content hasWarn with
  | none => ⟨deleted, true⟩
  | some (warning, content) =>
    match shuffle content g with
    | none => ⟨deleted, true⟩
    | some (rotated, _) =>
      let markdown := "### ".toList ++ warning ++ " \n\nPosted by `".toList ++ m.Author.Username ++
        "` \n\n".toList ++ content
      match pasteURL w warning markdown with
      | none => ⟨deleted, true⟩
      | some markdownURL =>
        ⟨deleted ++ [Action.ChannelMessageSendEmbed m.ChannelID
          { Author := { Name := m.Author.Username, IconURL := w.avatarURL m.Author [] }
            Color := c.EmbedColor
            Title := warning
            Description := description rotated
            URL := markdownURL }], false⟩

/-- The invite link of lines 177 and 212. -/
def inviteURL (c : config) : GoString :=
  "https://discordapp.com/oauth2/authorize?client_id=".toList ++ c.ClientID ++
    "&scope=bot&permissions=92160".toList

/-- Lines 172-193. -/
def cmdHelp (w : World) (s : Session) (m : MessageCreate) (c : config) : Outcome :=
  ⟨[Action.ChannelMessageSendEmbed m.ChannelID
    { Author := { Name := c.BotName, IconURL := w.avatarURL s.StateUser "128".toList,
                  URL := inviteURL c }
      Color := c.EmbedColor
      Fields := [
        { Name := "Usage".toList, Value := "```!sp your message```".toList, Inline := false },
        { Name := "Custom warning message".toList,
          Value := "```!sp spoiler for star warps | your message```".toList, Inline := false }] }],
   false⟩

/-- Go `fmt.Sprintf("%d", n)` for a non-negative `n`. -/
def sprintd (n : Nat) : GoString := (Nat.repr n).toList

/-- Lines 195-253. -/
def cmdStats (w : World) (s : Session) (m : MessageCreate) (c : config) : Outcome :=
  let users := s.Guilds.foldl (fun users guild => users + guild.Members.length) 0
  let channels := s.Guilds.foldl (fun channels guild => channels + guild.Channels.length) 0
  ⟨[Action.ChannelMessageSendEmbed m.ChannelID
    { Author := { Name := c.BotName, IconURL := w.avatarURL s.StateUser "128".toList,
                  URL := inviteURL c }
      Color := c.EmbedColor
      Fields := [
        { Name := "Discordgo".toList, Value := w.discordgoVERSION, Inline := true },
        { Name := "Go".toList, Value := w.runtimeVersion, Inline := true },
        { Name := "Memory".toList,
          Value := w.humanizeBytes w.memAlloc ++ " / ".toList ++ w.humanizeBytes w.memSys,
          Inline := true },
        { Name := "Tasks".toList, Value := sprintd w.numGoroutine, Inline := true },
        { Name := "Servers".toList, Value := sprintd s.Guilds.length, Inline := true },
        { Name := "Channels".toList, Value := sprintd channels, Inline := true },
        { Name := "Users".toList, Value := sprintd users, Inline := true }] }],
   false⟩

/-- An outcome that did nothing. -/
def Outcome.skip : Outcome := ⟨[], false⟩

/-- Lines 110-117 of `messageCreate`: the spoiler command. -/
def spoilerStep (w : World) (g : Rand) (m : MessageCreate) (c : config) (message : GoString) :
    Outcome :=
  if MatchString cw message then cmdSpoiler w g m c true
  else if MatchString nw message then cmdSpoiler w g m c false
  else Outcome.skip

/-- Lines 101-130. -/
def messageCreate (w : World) (g : Rand) (s : Session) (m : MessageCreate) (c : config) :
    Outcome :=
  if m.Author.ID = s.StateUser.ID then Outcome.skip
  else
    let message := ToLower w.unicodeToLower m.Content
    (spoilerStep w g m c message).andThen <|
    (if message = "!help".toList then cmdHelp w s m c else Outcome.skip).andThen <|
    (if message = "!stats".toList then cmdStats w s m c else Outcome.skip).andThen <|
    (if message = "!ping".toList then ⟨[Action.ChannelMessageSend m.ChannelID "Pong!".toList], false⟩
     else Outcome.skip)

/-! ## Auxiliary notions for the statements -/

namespace Regex

/-- The language of a regular expression. -/
inductive Matches : Regex → GoString → Prop
  | eps : Matches .eps []
  | chr (c : Char) : Matches (.chr c) [c]
  | dot (c : Char) (h : c ≠ '\n') : Matches .dot [c]
  | altL {a b : Regex} {x : GoString} : Matches a x → Matches (.alt a b) x
  | altR {a b : Regex} {x : GoString} : Matches b x → Matches (.alt a b) x
  | seq {a b : Regex} {x y : GoString} : Matches a x → Matches b y → Matches (.seq a b) (x ++ y)
  | starNil {a : Regex} : Matches (.star a) []
  | starCons {a : Regex} {x y : GoString} :
      Matches a x → Matches (.star a) y → Matches (.star a) (x ++ y)

end Regex

/-- The distinct glyphs of `boxes`. -/
def palette : List Char := ['█', '▓', '▒', '░', '<', '>', '/']

/-- Relation between a code point and its mask. -/
def Masked (c b : Char) : Prop := (c = ' ' ∧ b = ' ') ∨ (c ≠ ' ' ∧ b ∈ palette ∧ b ≠ ' ')

/-- The text spells `lit` with each of its letters in either case. -/
def anyCase (lit text : GoString) : Prop :=
  List.Forall₂ (fun l t => t = l ∨ t = l.toUpper) lit text

instance (lit text : GoString) : Decidable (anyCase lit text) := by
  unfold anyCase; infer_instance

/-- The embed carried by an action, if any. -/
def Action.embed? : Action → Option MessageEmbed
  | .ChannelMessageSendEmbed _ e => some e
  | _ => none

/-- The embeds sent in an outcome. -/
def Outcome.embeds (o : Outcome) : List MessageEmbed := o.actions.filterMap Action.embed?

/-- Number of outbound messages in an outcome. -/
def Outcome.replies (o : Outcome) : Nat := o.actions.countP Action.isReply

/-- A world in which the paste service answers every request with the link `https://mnn.im/1`. -/
def onlineWorld : World where
  unicodeToLower := asciiLower
  clientDo := fun _ => some ⟨[]⟩
  jsonUnmarshal := fun _ p => { p with Paste := { p.Paste with Formatted := "https://mnn.im/1".toList } }
  avatarURL := fun u _ => u.Avatar
  humanizeBytes := fun n => sprintd n ++ " B".toList
  discordgoVERSION := "0.19.0".toList
  runtimeVersion := "go1.12".toList
  memAlloc := 1
  memSys := 2
  numGoroutine := 3

/-- The same world with the paste service unreachable: every request fails. -/
def offlineWorld : World := { onlineWorld with clientDo := fun _ => none }

/-- The bot's own session, with an empty guild cache. -/
def botSession : Session := ⟨⟨"1".toList, "spoilerbot".toList, []⟩, []⟩

/-- A configuration. -/
def botConfig : config := ⟨[], "42".toList, "Spoiler".toList, 255⟩

/-- A message with the given text, sent by a user who is not the bot. -/
def messageOf (text : GoString) : MessageCreate :=
  ⟨"100".toList, "7".toList, text, ⟨"2".toList, "ann".toList, []⟩⟩

/-- The generator whose raw outputs are all `0`: every draw picks the first glyph. -/
def zeroRand : Rand := fun _ => 0

/-! ## Regular expressions: the matcher computes the language -/

namespace Regex

theorem nullable_sound : ∀ r : Regex, r.nullable = true → Matches r []
  | .empty, h => by simp [nullable] at h
  | .eps, _ => Matches.eps
  | .chr _, h => by simp [nullable] at h
  | .dot, h => by simp [nullable] at h
  | .alt a b, h => by
    simp only [nullable, Bool.or_eq_true] at h
    rcases h with h | h
    · exact Matches.altL (nullable_sound a h)
    · exact Matches.altR (nullable_sound b h)
  | .seq a b, h => by
    simp only [nullable, Bool.and_eq_true] at h
    exact Matches.seq (x := []) (nullable_sound a h.1) (nullable_sound b h.2)
  | .star _, _ => Matches.starNil

theorem deriv_sound : ∀ (r : Regex) (c : Char) (s : GoString),
    Matches (r.deriv c) s → Matches r (c :: s)
  | .empty, c, s, h => by simp only [deriv] at h; cases h
  | .eps, c, s, h => by simp only [deriv] at h; cases h
  | .chr a, c, s, h => by
    simp only [deriv] at h
    split at h
    · rename_i hac; subst hac; cases h; exact Matches.chr a
    · cases h
  | .dot, c, s, h => by
    simp only [deriv] at h
    split at h
    · cases h
    · rename_i hc; cases h; exact Matches.dot c hc
  | .alt a b, c, s, h => by
    simp only [deriv] at h
    cases h with
    | altL h => exact Matches.altL (deriv_sound a c s h)
    | altR h => exact Matches.altR (deriv_sound b c s h)
  | .seq a b, c, s, h => by
    simp only [deriv] at h
    split at h
    · rename_i hn
      cases h with
      | altL h =>
        cases h with
        | seq h1 h2 => exact Matches.seq (deriv_sound a c _ h1) h2
      | altR h => exact Matches.seq (x := []) (nullable_sound a hn) (deriv_sound b c s h)
    · cases h with
      | seq h1 h2 => exact Matches.seq (deriv_sound a c _ h1) h2
  | .star a, c, s, h => by
    simp only [deriv] at h
    cases h with
    | seq h1 h2 => exact Matches.starCons (deriv_sound a c _ h1) h2

theorem matchPrefix_sound : ∀ (s : GoString) (r : Regex),
    r.matchPrefix s = true → ∃ p q, s = p ++ q ∧ Matches r p
  | [], r, h => ⟨[], [], rfl, nullable_sound r (by simpa [matchPrefix] using h)⟩
  | c :: cs, r, h => by
    simp only [matchPrefix, Bool.or_eq_true] at h
    rcases h with h | h
    · exact ⟨[], c :: cs, rfl, nullable_sound r h⟩
    · obtain ⟨p, q, hpq, hm⟩ := matchPrefix_sound cs (r.deriv c) h
      exact ⟨c :: p, q, by simp [hpq], deriv_sound r c p hm⟩

theorem Matches.seq_inv {a b : Regex} {x : GoString} (h : Matches (.seq a b) x) :
    ∃ y z, x = y ++ z ∧ Matches a y ∧ Matches b z := by
  cases h with
  | seq h1 h2 => exact ⟨_, _, rfl, h1, h2⟩

theorem Matches.chr_inv {c : Char} {x : GoString} (h : Matches (.chr c) x) : x = [c] := by
  cases h; rfl

theorem Matches.str_inv : ∀ (l : GoString) {x : GoString}, Matches (str l) x → x = l
  | [], x, h => by simp only [str] at h; cases h; rfl
  | c :: cs, x, h => by
    simp only [str] at h
    obtain ⟨y, z, rfl, hy, hz⟩ := h.seq_inv
    rw [hy.chr_inv, Matches.str_inv cs hz]; rfl

theorem nullable_complete {r : Regex} {x : GoString} (h : Matches r x) :
    x = [] → r.nullable = true := by
  induction h with
  | eps => intro _; rfl
  | chr c => intro h; cases h
  | dot c _ => intro h; cases h
  | altL _ ih => intro h; simp [nullable, ih h]
  | altR _ ih => intro h; simp [nullable, ih h]
  | seq _ _ ih1 ih2 =>
    intro h
    obtain ⟨hx, hy⟩ := List.append_eq_nil.mp h
    simp [nullable, ih1 hx, ih2 hy]
  | starNil => intro _; rfl
  | starCons _ _ _ _ => intro _; rfl

theorem deriv_complete {r : Regex} {x : GoString} (h : Matches r x) :
    ∀ (c : Char) (s : GoString), x = c :: s → Matches (r.deriv c) s := by
  induction h with
  | eps => intro c s h; cases h
  | chr a => intro c s h; cases h; simp only [deriv, if_true]; exact Matches.eps
  | dot a ha => intro c s h; cases h; simp only [deriv, if_neg ha]; exact Matches.eps
  | altL _ ih => intro c s h; exact Matches.altL (ih c s h)
  | altR _ ih => intro c s h; exact Matches.altR (ih c s h)
  | @seq a b x y h1 h2 ih1 ih2 =>
    intro c s h
    simp only [deriv]
    cases x with
    | nil =>
      have hn := nullable_complete h1 rfl
      simp only [hn, if_true]
      exact Matches.altR (ih2 c s h)
    | cons d x' =>
      simp only [List.cons_append, List.cons.injEq] at h
      obtain ⟨rfl, rfl⟩ := h
      have hs := Matches.seq (ih1 d x' rfl) h2
      split
      · exact Matches.altL hs
      · exact hs
  | starNil => intro c s h; cases h
  | @starCons a x y h1 h2 ih1 ih2 =>
    intro c s h
    cases x with
    | nil => exact ih2 c s h
    | cons d x' =>
      simp only [List.cons_append, List.cons.injEq] at h
      obtain ⟨rfl, rfl⟩ := h
      simp only [deriv]
      exact Matches.seq (ih1 d x' rfl) h2

theorem matchPrefix_complete : ∀ (p : GoString) (r : Regex) (q : GoString),
    Matches r p → r.matchPrefix (p ++ q) = true
  | [], r, q, h => by
    have hn := nullable_complete h rfl
    cases q <;> simp [matchPrefix, hn]
  | c :: p, r, q, h => by
    simp only [List.cons_append, matchPrefix, Bool.or_eq_true]
    right
    exact matchPrefix_complete p (r.deriv c) q (deriv_complete h c p rfl)

theorem matchPrefix_iff (r : Regex) (s : GoString) :
    r.matchPrefix s = true ↔ ∃ p q, s = p ++ q ∧ Matches r p :=
  ⟨matchPrefix_sound s r, fun ⟨p, q, hs, hm⟩ => hs ▸ matchPrefix_complete p r q hm⟩

theorem Matches.str_self : ∀ l : GoString, Matches (str l) l
  | [] => Matches.eps
  | c :: cs => Matches.seq (Matches.chr c) (Matches.str_self cs)

theorem Matches.star_dot : ∀ x : GoString, '\n' ∉ x → Matches (.star .dot) x
  | [], _ => Matches.starNil
  | c :: cs, h => by
    have hc : c ≠ '\n' := fun e => h (by simp [e])
    have hcs : '\n' ∉ cs := fun e => h (by simp [e])
    exact Matches.starCons (Matches.dot c hc) (Matches.star_dot cs hcs)

theorem Matches.star_dot_inv {r : Regex} {x : GoString} (h : Matches r x) :
    r = .star .dot → '\n' ∉ x := by
  induction h with
  | eps => intro h; cases h
  | chr c => intro h; cases h
  | dot c _ => intro h; cases h
  | altL _ _ => intro h; cases h
  | altR _ _ => intro h; cases h
  | seq _ _ _ _ => intro h; cases h
  | starNil => intro _; simp
  | starCons h1 _ _ ih2 =>
    intro h
    cases h
    cases h1 with
    | dot c hc =>
      have := ih2 rfl
      simp only [List.singleton_append, List.mem_cons, not_or]
      exact ⟨fun e => hc e.symm, this⟩

theorem Matches.plus_dot_iff (x : GoString) :
    Matches (plus .dot) x ↔ x ≠ [] ∧ '\n' ∉ x := by
  constructor
  · intro h
    obtain ⟨y, z, rfl, hy, hz⟩ := h.seq_inv
    cases hy with
    | dot c hc =>
      have := hz.star_dot_inv rfl
      refine ⟨by simp, ?_⟩
      simp only [List.singleton_append, List.mem_cons, not_or]
      exact ⟨fun e => hc e.symm, this⟩
  · rintro ⟨hne, hnl⟩
    cases x with
    | nil => exact absurd rfl hne
    | cons c cs =>
      have hc : c ≠ '\n' := fun e => hnl (by simp [e])
      have hcs : '\n' ∉ cs := fun e => hnl (by simp [e])
      exact Matches.seq (Matches.dot c hc) (Matches.star_dot cs hcs)

end Regex

/-- The words accepted by line 111: the command, a space, a non-empty run without line
feed, a `|`, and one more non-empty run without line feed; anything may follow. -/
theorem cw_match_iff (s : GoString) :
    MatchString cw s = true ↔
      ∃ cmd a b rest, (cmd = "sp".toList ∨ cmd = "cw".toList) ∧
        s = '!' :: cmd ++ ' ' :: a ++ '|' :: b ++ rest ∧
        a ≠ [] ∧ '\n' ∉ a ∧ b ≠ [] ∧ '\n' ∉ b := by
  unfold MatchString
  rw [Regex.matchPrefix_iff]
  constructor
  · rintro ⟨p, q, rfl, h⟩
    unfold cw at h
    obtain ⟨x1, r1, rfl, h1, h⟩ := h.seq_inv
    obtain ⟨x2, r2, rfl, h2, h⟩ := h.seq_inv
    obtain ⟨x3, r3, rfl, h3, h⟩ := h.seq_inv
    obtain ⟨x4, r4, rfl, h4, h⟩ := h.seq_inv
    obtain ⟨x5, r5, rfl, h5, h6⟩ := h.seq_inv
    rw [h1.chr_inv, h3.chr_inv, h5.chr_inv]
    obtain ⟨ha1, ha2⟩ := (Regex.Matches.plus_dot_iff x4).mp h4
    obtain ⟨hb1, hb2⟩ := (Regex.Matches.plus_dot_iff r5).mp h6
    refine ⟨x2, x4, r5, q, ?_, by simp, ha1, ha2, hb1, hb2⟩
    cases h2 with
    | altL h2 => left; exact Regex.Matches.str_inv _ h2
    | altR h2 => right; exact Regex.Matches.str_inv _ h2
  · rintro ⟨cmd, a, b, rest, hcmd, rfl, ha1, ha2, hb1, hb2⟩
    refine ⟨'!' :: cmd ++ ' ' :: a ++ '|' :: b, rest, by simp, ?_⟩
    have hcmd' : Regex.Matches (.alt (.str "sp".toList) (.str "cw".toList)) cmd := by
      rcases hcmd with rfl | rfl
      · exact Regex.Matches.altL (Regex.Matches.str_self _)
      · exact Regex.Matches.altR (Regex.Matches.str_self _)
    have hA := (Regex.Matches.plus_dot_iff a).mpr ⟨ha1, ha2⟩
    have hB := (Regex.Matches.plus_dot_iff b).mpr ⟨hb1, hb2⟩
    have := Regex.Matches.seq (Regex.Matches.chr '!') (Regex.Matches.seq hcmd'
      (Regex.Matches.seq (Regex.Matches.chr ' ') (Regex.Matches.seq hA
        (Regex.Matches.seq (Regex.Matches.chr '|') hB))))
    simpa [cw] using this

/-- A text accepted by line 111 holds a `|`. -/
theorem cw_match_shape {s : GoString} (h : MatchString cw s = true) : '|' ∈ s := by
  obtain ⟨cmd, a, b, rest, _, rfl, _⟩ := (cw_match_iff s).mp h
  simp

/-- The words accepted by line 112: the command, a space and a non-empty run without
line feed; anything may follow. -/
theorem nw_match_iff (s : GoString) :
    MatchString nw s = true ↔
      ∃ cmd a rest, (cmd = "sp".toList ∨ cmd = "cw".toList) ∧
        s = '!' :: cmd ++ ' ' :: a ++ rest ∧ a ≠ [] ∧ '\n' ∉ a := by
  unfold MatchString
  rw [Regex.matchPrefix_iff]
  constructor
  · rintro ⟨p, q, rfl, h⟩
    unfold nw at h
    obtain ⟨x1, r1, rfl, h1, h⟩ := h.seq_inv
    obtain ⟨x2, r2, rfl, h2, h⟩ := h.seq_inv
    obtain ⟨x3, r3, rfl, h3, h4⟩ := h.seq_inv
    rw [h1.chr_inv, h3.chr_inv]
    obtain ⟨ha1, ha2⟩ := (Regex.Matches.plus_dot_iff r3).mp h4
    refine ⟨x2, r3, q, ?_, by simp, ha1, ha2⟩
    cases h2 with
    | altL h2 => left; exact Regex.Matches.str_inv _ h2
    | altR h2 => right; exact Regex.Matches.str_inv _ h2
  · rintro ⟨cmd, a, rest, hcmd, rfl, ha1, ha2⟩
    refine ⟨'!' :: cmd ++ ' ' :: a, rest, by simp, ?_⟩
    have hcmd' : Regex.Matches (.alt (.str "sp".toList) (.str "cw".toList)) cmd := by
      rcases hcmd with rfl | rfl
      · exact Regex.Matches.altL (Regex.Matches.str_self _)
      · exact Regex.Matches.altR (Regex.Matches.str_self _)
    have hA := (Regex.Matches.plus_dot_iff a).mpr ⟨ha1, ha2⟩
    have := Regex.Matches.seq (Regex.Matches.chr '!') (Regex.Matches.seq hcmd'
      (Regex.Matches.seq (Regex.Matches.chr ' ') hA))
    simpa [nw] using this

/-! ## Strings: where a `|` can come from -/

theorem toNat_ofNat_valid (n : Nat) (h : n.isValidChar) : (Char.ofNat n).toNat = n := by
  unfold Char.ofNat
  rw [dif_pos h]
  rfl

theorem asciiLower_bar {c : Char} (h : asciiLower c = '|') : c = '|' := by
  unfold asciiLower at h
  split at h
  · rename_i hc
    exfalso
    have h1 := congrArg Char.toNat h
    have hv : (c.toNat + ('a'.toNat - 'A'.toNat)).isValidChar := by
      left
      have : 'a'.toNat - 'A'.toNat = 32 := by decide
      have h2 : 'Z'.toNat = 90 := by decide
      omega
    rw [toNat_ofNat_valid _ hv] at h1
    have : 'a'.toNat - 'A'.toNat = 32 := by decide
    have h2 : 'Z'.toNat = 90 := by decide
    have h3 : '|'.toNat = 124 := by decide
    omega
  · exact h

theorem ToLower_bar (ul : Char → Char) (hul : ∀ c, ul c = '|' → c = '|') {s : GoString}
    (h : '|' ∈ ToLower ul s) : '|' ∈ s := by
  unfold ToLower at h
  split at h
  · obtain ⟨c, hc, he⟩ := List.mem_map.mp h
    exact asciiLower_bar he ▸ hc
  · obtain ⟨c, hc, he⟩ := List.mem_map.mp h
    exact hul c he ▸ hc

/-- The defining property of `Index`: the text splits around the occurrence found. -/
theorem Index_some : ∀ (s sub : GoString) (i : Nat), Index s sub = some i →
    s = s.take i ++ sub ++ s.drop (i + sub.length)
  | [], sub, i, h => by
    simp only [Index] at h
    split at h
    · rename_i hs; subst hs; simp
    · cases h
  | c :: cs, sub, i, h => by
    simp only [Index] at h
    split at h
    · rename_i hp
      cases h
      obtain ⟨t, ht⟩ := List.isPrefixOf_iff_prefix.mp hp
      rw [← ht]; simp
    · cases hi : Index cs sub with
      | none => simp [hi] at h
      | some j =>
        simp only [hi, Option.map_some', Option.some.injEq] at h
        subst h
        have ih := Index_some cs sub j hi
        simp only [List.take_succ_cons, List.cons_append, List.cons.injEq, true_and]
        rw [show j + 1 + sub.length = (j + sub.length) + 1 by omega, List.drop_succ_cons]
        exact ih

/-- The first `|` is found where it stands. -/
theorem Index_bar (before after : GoString) (h : '|' ∉ before) :
    Index (before ++ '|' :: after) ['|'] = some before.length := by
  induction before with
  | nil => simp [Index, List.isPrefixOf]
  | cons c cs ih =>
    have hc : c ≠ '|' := fun e => h (by simp [e])
    have hcs : '|' ∉ cs := fun e => h (by simp [e])
    simp [Index, List.isPrefixOf, hc, Ne.symm hc, ih hcs]

theorem mem_split_first {c : Char} : ∀ {s : GoString}, c ∈ s →
    ∃ before after, s = before ++ c :: after ∧ c ∉ before
  | [], h => by cases h
  | d :: ds, h => by
    by_cases hd : d = c
    · exact ⟨[], ds, by simp [hd], by simp⟩
    · have : c ∈ ds := by
        rcases List.mem_cons.mp h with h | h
        · exact absurd h.symm hd
        · exact h
      obtain ⟨b, a, hs, hb⟩ := mem_split_first this
      refine ⟨d :: b, a, by simp [hs], ?_⟩
      simp only [List.mem_cons, not_or]
      exact ⟨fun e => hd e.symm, hb⟩

theorem Replace_one (s old : GoString) :
    Replace s old [] 1 = match Index s old with
      | none => s
      | some i => s.take i ++ s.drop (i + old.length) := by
  simp only [Replace]
  cases Index s old <;> simp

/-- Removing a word without `|` neither adds nor removes a `|`. -/
theorem Replace_one_bar (s old : GoString) (hold : '|' ∉ old) :
    '|' ∈ Replace s old [] 1 ↔ '|' ∈ s := by
  rw [Replace_one]
  cases hi : Index s old with
  | none => simp
  | some i =>
    have hs := Index_some s old i hi
    simp only
    conv_rhs => rw [hs]
    simp [hold]

theorem spoilerText_bar (content : GoString) : '|' ∈ spoilerText content ↔ '|' ∈ content := by
  unfold spoilerText
  rw [Replace_one_bar _ _ (by decide), Replace_one_bar _ _ (by decide)]

theorem SplitN_two_bar (before after : GoString) (h : '|' ∉ before) :
    SplitN (before ++ '|' :: after) "|".toList 2 = [before, after] := by
  have hi := Index_bar before after h
  have : "|".toList = ['|'] := rfl
  rw [this]
  simp [SplitN, hi]

/-! ## Masking -/

theorem boxes_lookup (n : Nat) (h : n < boxes.length) :
    ∃ b, boxes[n]? = some [b] ∧ b ∈ palette ∧ b ≠ ' ' := by
  have h15 : n < 15 := h
  interval_cases n <;> exact ⟨_, rfl, by decide, by decide⟩

theorem shuffleChar_spec (c : Char) (g : Rand) :
    ∃ b g', shuffleChar c g = some ([b], g') ∧ Masked c b := by
  unfold shuffleChar
  by_cases hc : c = ' '
  · exact ⟨' ', g, by simp [hc], Or.inl ⟨hc, rfl⟩⟩
  · have hlen : boxes.length ≠ 0 := by decide
    have hlt : g 0 % boxes.length < boxes.length := Nat.mod_lt _ (Nat.pos_of_ne_zero hlen)
    obtain ⟨b, hb, hmem, hne⟩ := boxes_lookup _ hlt
    refine ⟨b, fun i => g (i + 1), ?_, Or.inr ⟨hc, hmem, hne⟩⟩
    simp [hc, Intn, hlen, hb]

theorem shuffleLoop_spec (s : GoString) :
    ∀ (shuffled : List GoString) (g : Rand),
      ∃ out g', shuffleLoop s shuffled g = some (shuffled ++ out.map (fun b => [b]), g') ∧
        List.Forall₂ Masked s out := by
  induction s with
  | nil => intro shuffled g; exact ⟨[], g, by simp [shuffleLoop], List.Forall₂.nil⟩
  | cons c rest ih =>
    intro shuffled g
    obtain ⟨b, g1, hb, hm⟩ := shuffleChar_spec c g
    obtain ⟨out, g2, hout, hrel⟩ := ih (shuffled ++ [[b]]) g1
    refine ⟨b :: out, g2, ?_, List.Forall₂.cons hm hrel⟩
    simp [shuffleLoop, hb, hout]

theorem Join_singletons (out : List Char) : Join (out.map (fun b => [b])) [] = out := by
  induction out with
  | nil => rfl
  | cons b rest ih =>
    cases rest with
    | nil => rfl
    | cons b2 rest2 =>
      simp only [List.map_cons, Join] at ih ⊢
      simp [ih]

/-- Masking always returns, and relates input and output position by position. -/
theorem shuffle_spec (s : GoString) (g : Rand) :
    ∃ out g', shuffle s g = some (out, g') ∧ List.Forall₂ Masked s out := by
  obtain ⟨out, g', h, hrel⟩ := shuffleLoop_spec s [] g
  refine ⟨out, g', ?_, hrel⟩
  simp [shuffle, h, Join_singletons]

theorem Forall₂_getElem? {α β} {R : α → β → Prop} {l₁ : List α} {l₂ : List β}
    (h : List.Forall₂ R l₁ l₂) (i : Nat) :
    (l₁[i]? = none ∧ l₂[i]? = none) ∨ ∃ a b, l₁[i]? = some a ∧ l₂[i]? = some b ∧ R a b := by
  induction h generalizing i with
  | nil => left; simp
  | cons hab _ ih =>
    cases i with
    | zero => right; exact ⟨_, _, by simp, by simp, hab⟩
    | succ j => simpa using ih j

/-- C1: for every text and every state of the generator, `shuffle` returns a text with as
many code points as its input, with a space wherever the input has one. -/
theorem shuffle_length_spaces (s : GoString) (g : Rand) :
    ∃ out g', shuffle s g = some (out, g') ∧ out.length = s.length ∧
      ∀ i : Nat, s[i]? = some ' ' → out[i]? = some ' ' := by
  obtain ⟨out, g', h, hrel⟩ := shuffle_spec s g
  refine ⟨out, g', h, hrel.length_eq.symm, ?_⟩
  intro i hi
  rcases Forall₂_getElem? hrel i with ⟨h1, _⟩ | ⟨a, b, ha, hb, hab⟩
  · rw [h1] at hi; cases hi
  · rw [ha] at hi
    cases hi
    rcases hab with ⟨_, hb2⟩ | ⟨hne, _⟩
    · rw [hb, hb2]
    · exact absurd rfl hne

/-- C8: for every text and every state of the generator, the palette lookup is in range,
every non-space position of the input carries a glyph of the palette other than the space,
and the spaces of the output are exactly those of the input. -/
theorem shuffle_palette (s : GoString) (g : Rand) :
    ∃ out g', shuffle s g = some (out, g') ∧
      (∀ (i : Nat) (c : Char), s[i]? = some c → c ≠ ' ' → ∃ b, out[i]? = some b ∧ b ∈ palette ∧ b ≠ ' ') ∧
      (∀ i : Nat, out[i]? = some ' ' ↔ s[i]? = some ' ') := by
  obtain ⟨out, g', h, hrel⟩ := shuffle_spec s g
  refine ⟨out, g', h, ?_, ?_⟩
  · intro i c hi hc
    rcases Forall₂_getElem? hrel i with ⟨h1, _⟩ | ⟨a, b, ha, hb, hab⟩
    · rw [h1] at hi; cases hi
    · rw [ha] at hi
      cases hi
      rcases hab with ⟨hsp, _⟩ | ⟨_, hmem, hne⟩
      · exact absurd hsp hc
      · exact ⟨b, hb, hmem, hne⟩
  · intro i
    rcases Forall₂_getElem? hrel i with ⟨h1, h2⟩ | ⟨a, b, ha, hb, hab⟩
    · simp [h1, h2]
    · rw [ha, hb]
      rcases hab with ⟨h1, h2⟩ | ⟨h1, _, h3⟩
      · simp [h1, h2]
      · simp [h1, h3]

/-! ## Dispatch -/

/-- A text that spells a lower-case ASCII literal in any letter case is lowered to it. -/
theorem anyCase_lower (ul : Char → Char) (lit : GoString)
    (hlit : ∀ l ∈ lit, isASCII l = true ∧ isASCII l.toUpper = true ∧
      asciiLower l = l ∧ asciiLower l.toUpper = l)
    (text : GoString) (h : anyCase lit text) : ToLower ul text = lit := by
  have key : text.all isASCII = true ∧ text.map asciiLower = lit := by
    unfold anyCase at h
    induction h with
    | nil => exact ⟨rfl, rfl⟩
    | @cons l t ls ts hlt _ ih =>
      obtain ⟨h1, h2, h3, h4⟩ := hlit l (by simp)
      obtain ⟨ia, im⟩ := ih (fun x hx => hlit x (by simp [hx]))
      rcases hlt with rfl | rfl
      · exact ⟨by simp [List.all_cons, h1, ia], by simp [h3, im]⟩
      · exact ⟨by simp [List.all_cons, h2, ia], by simp [h4, im]⟩
  unfold ToLower
  rw [if_pos key.1, key.2]

theorem skip_andThen (o : Outcome) : Outcome.skip.andThen o = o := by
  simp [Outcome.andThen, Outcome.skip]

theorem andThen_skip (o : Outcome) : o.andThen Outcome.skip = o := by
  cases o with
  | mk a p => cases p <;> simp [Outcome.andThen, Outcome.skip]

/-- What the handler does once the lower-cased text is known. -/
theorem messageCreate_eq (w : World) (g : Rand) (s : Session) (m : MessageCreate) (c : config)
    (hbot : m.Author.ID ≠ s.StateUser.ID) (message : GoString)
    (hm : ToLower w.unicodeToLower m.Content = message) :
    messageCreate w g s m c =
      (spoilerStep w g m c message).andThen
      ((if message = "!help".toList then cmdHelp w s m c else Outcome.skip).andThen
      ((if message = "!stats".toList then cmdStats w s m c else Outcome.skip).andThen
       (if message = "!ping".toList then
          ⟨[Action.ChannelMessageSend m.ChannelID "Pong!".toList], false⟩
        else Outcome.skip))) := by
  unfold messageCreate
  rw [if_neg hbot]
  simp only [hm]

theorem spoilerStep_help (w : World) (g : Rand) (m : MessageCreate) (c : config) :
    spoilerStep w g m c "!help".toList = Outcome.skip := by
  have h1 : MatchString cw "!help".toList = false := by decide
  have h2 : MatchString nw "!help".toList = false := by decide
  simp only [spoilerStep, h1, h2, Bool.false_eq_true, if_false]

theorem spoilerStep_stats (w : World) (g : Rand) (m : MessageCreate) (c : config) :
    spoilerStep w g m c "!stats".toList = Outcome.skip := by
  have h1 : MatchString cw "!stats".toList = false := by decide
  have h2 : MatchString nw "!stats".toList = false := by decide
  simp only [spoilerStep, h1, h2, Bool.false_eq_true, if_false]

theorem spoilerStep_ping (w : World) (g : Rand) (m : MessageCreate) (c : config) :
    spoilerStep w g m c "!ping".toList = Outcome.skip := by
  have h1 : MatchString cw "!ping".toList = false := by decide
  have h2 : MatchString nw "!ping".toList = false := by decide
  simp only [spoilerStep, h1, h2, Bool.false_eq_true, if_false]

theorem messageCreate_help (w : World) (g : Rand) (s : Session) (m : MessageCreate) (c : config)
    (hbot : m.Author.ID ≠ s.StateUser.ID)
    (hm : ToLower w.unicodeToLower m.Content = "!help".toList) :
    messageCreate w g s m c = cmdHelp w s m c := by
  rw [messageCreate_eq w g s m c hbot _ hm, spoilerStep_help, skip_andThen, if_pos rfl,
    if_neg (by decide), if_neg (by decide), skip_andThen, andThen_skip]

theorem messageCreate_stats (w : World) (g : Rand) (s : Session) (m : MessageCreate) (c : config)
    (hbot : m.Author.ID ≠ s.StateUser.ID)
    (hm : ToLower w.unicodeToLower m.Content = "!stats".toList) :
    messageCreate w g s m c = cmdStats w s m c := by
  rw [messageCreate_eq w g s m c hbot _ hm, spoilerStep_stats, skip_andThen, if_neg (by decide),
    if_pos rfl, if_neg (by decide), skip_andThen, andThen_skip]

theorem messageCreate_ping (w : World) (g : Rand) (s : Session) (m : MessageCreate) (c : config)
    (hbot : m.Author.ID ≠ s.StateUser.ID)
    (hm : ToLower w.unicodeToLower m.Content = "!ping".toList) :
    messageCreate w g s m c = ⟨[Action.ChannelMessageSend m.ChannelID "Pong!".toList], false⟩ := by
  rw [messageCreate_eq w g s m c hbot _ hm, spoilerStep_ping, skip_andThen, if_neg (by decide),
    if_neg (by decide), if_pos rfl, skip_andThen, skip_andThen]

set_option maxRecDepth 100000

/-! ## Dispatch: one branch per message -/

/-- The spoiler command sends at most one message. -/
theorem cmdSpoiler_replies (w : World) (g : Rand) (m : MessageCreate) (c : config) (b : Bool) :
    (cmdSpoiler w g m c b).replies ≤ 1 := by
  unfold cmdSpoiler
  split
  · simp [Outcome.replies, Action.isReply]
  · split
    · simp [Outcome.replies, Action.isReply]
    · dsimp only
      split
      · simp [Outcome.replies, Action.isReply]
      · simp [Outcome.replies, Action.isReply, List.countP_cons]

theorem spoilerStep_replies (w : World) (g : Rand) (m : MessageCreate) (c : config)
    (message : GoString) : (spoilerStep w g m c message).replies ≤ 1 := by
  unfold spoilerStep
  split
  · exact cmdSpoiler_replies w g m c true
  · split
    · exact cmdSpoiler_replies w g m c false
    · simp [Outcome.replies, Outcome.skip]

/-- C10: the four command branches exclude one another on every text, and a run of
the handler sends at most one message. -/
theorem at_most_one_branch (w : World) (g : Rand) (s : Session) (m : MessageCreate) (c : config)
    (message : GoString) :
    ¬ ((MatchString cw message = true ∨ MatchString nw message = true) ∧ message = "!help".toList) ∧
    ¬ ((MatchString cw message = true ∨ MatchString nw message = true) ∧ message = "!stats".toList) ∧
    ¬ ((MatchString cw message = true ∨ MatchString nw message = true) ∧ message = "!ping".toList) ∧
    ¬ (message = "!help".toList ∧ message = "!stats".toList) ∧
    ¬ (message = "!help".toList ∧ message = "!ping".toList) ∧
    ¬ (message = "!stats".toList ∧ message = "!ping".toList) ∧
    (messageCreate w g s m c).replies ≤ 1 := by
  refine ⟨?_, ?_, ?_, ?_, ?_, ?_, ?_⟩
  · rintro ⟨h, rfl⟩; revert h; decide
  · rintro ⟨h, rfl⟩; revert h; decide
  · rintro ⟨h, rfl⟩; revert h; decide
  · rintro ⟨rfl, h⟩; revert h; decide
  · rintro ⟨rfl, h⟩; revert h; decide
  · rintro ⟨rfl, h⟩; revert h; decide
  · by_cases hbot : m.Author.ID = s.StateUser.ID
    · simp [messageCreate, hbot, Outcome.replies, Outcome.skip]
    · by_cases h1 : ToLower w.unicodeToLower m.Content = "!help".toList
      · rw [messageCreate_help w g s m c hbot h1]
        simp [cmdHelp, Outcome.replies, Action.isReply]
      · by_cases h2 : ToLower w.unicodeToLower m.Content = "!stats".toList
        · rw [messageCreate_stats w g s m c hbot h2]
          simp [cmdStats, Outcome.replies, Action.isReply]
        · by_cases h3 : ToLower w.unicodeToLower m.Content = "!ping".toList
          · rw [messageCreate_ping w g s m c hbot h3]
            simp [Outcome.replies, Action.isReply]
          · rw [messageCreate_eq w g s m c hbot _ rfl, if_neg h1, if_neg h2, if_neg h3,
              andThen_skip, andThen_skip, andThen_skip]
            exact spoilerStep_replies w g m c _

/-- C9: a message of another user that spells `!help`, `!stats` or `!ping` in any letter
case matches neither spoiler pattern, and the handler does exactly what the command's own
branch does: `cmdHelp`, `cmdStats`, or the single plain message `Pong!`. -/
theorem help_stats_ping_dedicated (w : World) (g : Rand) (s : Session) (m : MessageCreate)
    (c : config) (hbot : m.Author.ID ≠ s.StateUser.ID) :
    (anyCase "!help".toList m.Content →
      MatchString cw (ToLower w.unicodeToLower m.Content) = false ∧
      MatchString nw (ToLower w.unicodeToLower m.Content) = false ∧
      messageCreate w g s m c = cmdHelp w s m c ∧
      ∃ e, cmdHelp w s m c = ⟨[Action.ChannelMessageSendEmbed m.ChannelID e], false⟩) ∧
    (anyCase "!stats".toList m.Content →
      MatchString cw (ToLower w.unicodeToLower m.Content) = false ∧
      MatchString nw (ToLower w.unicodeToLower m.Content) = false ∧
      messageCreate w g s m c = cmdStats w s m c ∧
      ∃ e, cmdStats w s m c = ⟨[Action.ChannelMessageSendEmbed m.ChannelID e], false⟩) ∧
    (anyCase "!ping".toList m.Content →
      MatchString cw (ToLower w.unicodeToLower m.Content) = false ∧
      MatchString nw (ToLower w.unicodeToLower m.Content) = false ∧
      messageCreate w g s m c =
        ⟨[Action.ChannelMessageSend m.ChannelID "Pong!".toList], false⟩) := by
  refine ⟨fun h => ?_, fun h => ?_, fun h => ?_⟩
  · have hm := anyCase_lower w.unicodeToLower _ (by decide) _ h
    refine ⟨by rw [hm]; decide, by rw [hm]; decide, messageCreate_help w g s m c hbot hm, _, rfl⟩
  · have hm := anyCase_lower w.unicodeToLower _ (by decide) _ h
    refine ⟨by rw [hm]; decide, by rw [hm]; decide, messageCreate_stats w g s m c hbot hm, _, rfl⟩
  · have hm := anyCase_lower w.unicodeToLower _ (by decide) _ h
    exact ⟨by rw [hm]; decide, by rw [hm]; decide, messageCreate_ping w g s m c hbot hm⟩

/-- The text `!PiNg` from another user is answered by `Pong!` alone. -/
theorem help_stats_ping_dedicated_witness :
    (messageOf "!PiNg".toList).Author.ID ≠ botSession.StateUser.ID ∧
    anyCase "!ping".toList (messageOf "!PiNg".toList).Content ∧
    messageCreate onlineWorld zeroRand botSession (messageOf "!PiNg".toList) botConfig =
      ⟨[Action.ChannelMessageSend (messageOf "!PiNg".toList).ChannelID "Pong!".toList], false⟩ :=
  ⟨by decide, by decide,
    ((help_stats_ping_dedicated onlineWorld zeroRand botSession (messageOf "!PiNg".toList)
      botConfig (by decide)).2.2 (by decide)).2.2⟩

/-! ## The spoiler command: warning label and content -/

/-- The with-warning split of a text whose command-free part has a first `|`. -/
theorem spoilerParts_split (text before after : GoString)
    (hs : spoilerText text = before ++ '|' :: after) (hb : '|' ∉ before) :
    spoilerParts text true = some (before, TrimSpace after) := by
  unfold spoilerParts
  simp only [if_true]
  rw [hs, SplitN_two_bar before after hb]
  rfl

/-- C6: whenever the lower-cased text matches the with-warning pattern, the text that
`cmdSpoiler` splits still holds a `|`: `SplitN` yields two pieces, `split[1]` exists, and
`cmdSpoiler` can only panic inside `pasteURL`. -/
theorem warning_split_in_range (w : World) (hw : ∀ c, w.unicodeToLower c = '|' → c = '|')
    (g : Rand) (m : MessageCreate) (c : config)
    (h : MatchString cw (ToLower w.unicodeToLower m.Content) = true) :
    '|' ∈ spoilerText m.Content ∧
    (SplitN (spoilerText m.Content) "|".toList 2).length = 2 ∧
    (∃ warning content, spoilerParts m.Content true = some (warning, content)) ∧
    ((cmdSpoiler w g m c true).panicked = true → ∃ title text, pasteURL w title text = none) := by
  have hbar : '|' ∈ spoilerText m.Content :=
    (spoilerText_bar m.Content).mpr (ToLower_bar _ hw (cw_match_shape h))
  obtain ⟨before, after, hs, hb⟩ := mem_split_first hbar
  have hsplit := SplitN_two_bar before after hb
  rw [← hs] at hsplit
  have hparts := spoilerParts_split m.Content before after hs hb
  refine ⟨hbar, by rw [hsplit]; rfl, ⟨before, TrimSpace after, hparts⟩, ?_⟩
  intro hp
  unfold cmdSpoiler at hp
  rw [hparts] at hp
  dsimp only at hp
  obtain ⟨out, g', hsh, _⟩ := shuffle_spec (TrimSpace after) g
  rw [hsh] at hp
  dsimp only at hp
  split at hp
  · rename_i hnone
    exact ⟨_, _, hnone⟩
  · simp at hp

/-- The text `!sp a| ` takes the with-warning branch and its split has two pieces. -/
theorem warning_split_in_range_witness :
    (∀ c, onlineWorld.unicodeToLower c = '|' → c = '|') ∧
    MatchString cw (ToLower onlineWorld.unicodeToLower (messageOf "!sp a| ".toList).Content) = true ∧
    ('|' ∈ spoilerText (messageOf "!sp a| ".toList).Content ∧
      (SplitN (spoilerText (messageOf "!sp a| ".toList).Content) "|".toList 2).length = 2 ∧
      (∃ warning content,
        spoilerParts (messageOf "!sp a| ".toList).Content true = some (warning, content)) ∧
      ((cmdSpoiler onlineWorld zeroRand (messageOf "!sp a| ".toList) botConfig true).panicked = true →
        ∃ title text, pasteURL onlineWorld title text = none)) :=
  ⟨fun _ => asciiLower_bar, by decide,
    warning_split_in_range onlineWorld (fun _ => asciiLower_bar) zeroRand
      (messageOf "!sp a| ".toList) botConfig (by decide)⟩

/-- The text left once the command is removed, when the command stands at the start in
lower case and the body holds no further command word. -/
theorem spoilerText_body (body : GoString)
    (hsp : Index body "!sp ".toList = none) (hcw : Index body "!cw ".toList = none) :
    spoilerText ("!sp ".toList ++ body) = body ∧ spoilerText ("!cw ".toList ++ body) = body := by
  constructor
  · unfold spoilerText
    have h1 : Replace ("!sp ".toList ++ body) "!sp ".toList [] 1 = body := by
      rw [Replace_one]
      simp [Index, List.isPrefixOf]
    rw [h1, Replace_one, hcw]
  · unfold spoilerText
    have h1 : Replace ("!cw ".toList ++ body) "!sp ".toList [] 1 = "!cw ".toList ++ body := by
      rw [Replace_one]
      have hsp2 : Index body ['!', 's', 'p', ' '] = none := hsp
      have : Index ("!cw ".toList ++ body) "!sp ".toList = none := by
        simp [Index, List.isPrefixOf, hsp2]
      rw [this]
    rw [h1, Replace_one]
    simp [Index, List.isPrefixOf]

/-- C2 (amended): take a message that starts with the lower-case command and whose body
holds no further command word and splits at its first `|` into `before` and `after`.
If the lower-cased text matches the with-warning pattern, the handler runs `cmdSpoiler`
with a warning: the content is `after` trimmed, the warning label is `before` up to
surrounding white space, and that label is the title of the embed sent.  If it matches
the no-warning pattern only, the label is `Content Warning` and the content is the
whole body. -/
theorem warning_and_content_split (w : World) (g : Rand) (m : MessageCreate) (c : config)
    (body before after : GoString)
    (hstart : m.Content = "!sp ".toList ++ body ∨ m.Content = "!cw ".toList ++ body)
    (hsp : Index body "!sp ".toList = none) (hcw : Index body "!cw ".toList = none)
    (hbody : body = before ++ '|' :: after) (hfirst : '|' ∉ before) :
    (MatchString cw (ToLower w.unicodeToLower m.Content) = true →
      spoilerStep w g m c (ToLower w.unicodeToLower m.Content) = cmdSpoiler w g m c true ∧
      ∃ warning, spoilerParts m.Content true = some (warning, TrimSpace after) ∧
        TrimSpace warning = TrimSpace before ∧
        ∀ e, Action.ChannelMessageSendEmbed m.ChannelID e ∈ (cmdSpoiler w g m c true).actions →
          e.Title = warning) ∧
    (MatchString cw (ToLower w.unicodeToLower m.Content) = false →
      MatchString nw (ToLower w.unicodeToLower m.Content) = true →
      spoilerStep w g m c (ToLower w.unicodeToLower m.Content) = cmdSpoiler w g m c false ∧
      spoilerParts m.Content false = some ("Content Warning".toList, body)) := by
  have htext : spoilerText m.Content = body := by
    rcases hstart with h | h
    · rw [h]; exact (spoilerText_body body hsp hcw).1
    · rw [h]; exact (spoilerText_body body hsp hcw).2
  have hparts : spoilerParts m.Content true = some (before, TrimSpace after) :=
    spoilerParts_split m.Content before after (by rw [htext, hbody]) hfirst
  refine ⟨fun hmatch => ⟨by simp [spoilerStep, hmatch], before, hparts, rfl, ?_⟩,
    fun h1 h2 => ⟨by simp [spoilerStep, h1, h2], ?_⟩⟩
  · intro e he
    unfold cmdSpoiler at he
    rw [hparts] at he
    dsimp only at he
    obtain ⟨out, g', hsh, _⟩ := shuffle_spec (TrimSpace after) g
    rw [hsh] at he
    dsimp only at he
    split at he
    · simp at he
    · simp at he
      rw [he]
  · unfold spoilerParts
    rw [htext]
    rfl

/-- The text `!sp my secret | this is the body|x`: the label is `my secret` up to white
space and the content is `this is the body|x`. -/
theorem warning_and_content_split_witness :
    ((messageOf "!sp my secret | this is the body|x".toList).Content =
        "!sp ".toList ++ "my secret | this is the body|x".toList ∨
      (messageOf "!sp my secret | this is the body|x".toList).Content =
        "!cw ".toList ++ "my secret | this is the body|x".toList) ∧
    Index "my secret | this is the body|x".toList "!sp ".toList = none ∧
    Index "my secret | this is the body|x".toList "!cw ".toList = none ∧
    "my secret | this is the body|x".toList =
      "my secret ".toList ++ '|' :: " this is the body|x".toList ∧
    '|' ∉ "my secret ".toList ∧
    MatchString cw (ToLower onlineWorld.unicodeToLower
      (messageOf "!sp my secret | this is the body|x".toList).Content) = true ∧
    ∃ warning, spoilerParts (messageOf "!sp my secret | this is the body|x".toList).Content true =
        some (warning, "this is the body|x".toList) ∧
      TrimSpace warning = "my secret".toList :=
  ⟨Or.inl rfl, by decide, by decide, by decide, by decide, by decide,
    (((warning_and_content_split onlineWorld zeroRand
        (messageOf "!sp my secret | this is the body|x".toList) botConfig
        "my secret | this is the body|x".toList "my secret ".toList " this is the body|x".toList
        (Or.inl rfl) (by decide) (by decide) (by decide) (by decide)).1 (by decide)).2).imp
      fun _ h => ⟨h.1, h.2.1⟩⟩

/-- C2 fails as stated: in `!sp |abc` the body holds a `|` and the message is handled as a
spoiler command, yet the label is `Content Warning`, not the (empty) text before the `|`,
and the content is the whole body `|abc`, not `abc`. -/
theorem bar_first_counterexample :
    MatchString cw (ToLower onlineWorld.unicodeToLower (messageOf "!sp |abc".toList).Content) = false ∧
    MatchString nw (ToLower onlineWorld.unicodeToLower (messageOf "!sp |abc".toList).Content) = true ∧
    spoilerStep onlineWorld zeroRand (messageOf "!sp |abc".toList) botConfig
        (ToLower onlineWorld.unicodeToLower (messageOf "!sp |abc".toList).Content) =
      cmdSpoiler onlineWorld zeroRand (messageOf "!sp |abc".toList) botConfig false ∧
    (messageOf "!sp |abc".toList).Content = "!sp ".toList ++ ([] ++ '|' :: "abc".toList) ∧
    spoilerParts (messageOf "!sp |abc".toList).Content false =
      some ("Content Warning".toList, "|abc".toList) ∧
    "Content Warning".toList ≠ TrimSpace [] ∧
    "|abc".toList ≠ TrimSpace "abc".toList ∧
    (messageCreate onlineWorld zeroRand botSession (messageOf "!sp |abc".toList)
      botConfig).embeds.map MessageEmbed.Title = ["Content Warning".toList] := by
  decide

/-- C3: in `!sp a !cw b` there is no `|` and the message is handled as a spoiler command
without warning, but the content is `a b`: the second `Replace` removed `!cw ` from the
middle of the text after the prefix, which is `a !cw b`.  The text `!cw just this` gives
the content `just this`. -/
theorem second_command_word_removed :
    spoilerParts "!cw just this".toList false =
      some ("Content Warning".toList, "just this".toList) ∧
    '|' ∉ "!sp a !cw b".toList ∧
    MatchString cw (ToLower onlineWorld.unicodeToLower "!sp a !cw b".toList) = false ∧
    MatchString nw (ToLower onlineWorld.unicodeToLower "!sp a !cw b".toList) = true ∧
    "!sp a !cw b".toList.drop 4 = "a !cw b".toList ∧
    spoilerParts "!sp a !cw b".toList false = some ("Content Warning".toList, "a b".toList) ∧
    spoilerParts "!sp a !cw b".toList false ≠ some ("Content Warning".toList, "a !cw b".toList) := by
  decide

/-- C7: `!SP hello` is handled as a spoiler command like `!sp hello`, but its content is
the whole text `!SP hello`, prefix included, where `!sp hello` gives `hello`; the embed
masks nine characters instead of five. -/
theorem upper_case_prefix_kept :
    MatchString cw (ToLower onlineWorld.unicodeToLower "!SP hello".toList) = false ∧
    MatchString nw (ToLower onlineWorld.unicodeToLower "!SP hello".toList) = true ∧
    MatchString nw (ToLower onlineWorld.unicodeToLower "!sp hello".toList) = true ∧
    spoilerParts "!SP hello".toList false = some ("Content Warning".toList, "!SP hello".toList) ∧
    spoilerParts "!sp hello".toList false = some ("Content Warning".toList, "hello".toList) ∧
    (messageCreate onlineWorld zeroRand botSession (messageOf "!SP hello".toList)
      botConfig).embeds.map MessageEmbed.Description = [utf8 "███ █████".toList] ∧
    (messageCreate onlineWorld zeroRand botSession (messageOf "!sp hello".toList)
      botConfig).embeds.map MessageEmbed.Description = [utf8 "█████".toList] := by
  decide

/-- C4: sixty-seven masked glyphs are 67 characters but 201 bytes, so the description is
cut after byte 200, in the middle of the last glyph, and ` ...` is appended. -/
theorem description_cut_by_bytes :
    (shuffle (List.replicate 67 'a') zeroRand).map Prod.fst = some (List.replicate 67 '█') ∧
    (List.replicate 67 '█').length = 67 ∧
    len (List.replicate 67 '█') = 201 ∧
    description (List.replicate 67 '█') =
      utf8 (List.replicate 66 '█') ++ [0xE2, 0x96] ++ utf8 " ...".toList ∧
    description (List.replicate 67 '█') ≠ utf8 (List.replicate 67 '█') ∧
    (messageCreate onlineWorld zeroRand botSession (messageOf ("!sp ".toList ++ List.replicate 67 'a'))
      botConfig).embeds.map MessageEmbed.Description =
        [utf8 (List.replicate 66 '█') ++ [0xE2, 0x96] ++ utf8 " ...".toList] := by
  decide

/-- C5: when the request fails, `pasteURL` panics instead of returning the empty string,
and the spoiler command ends after deleting the message, without a reply. -/
theorem failed_paste_panics (w : World) (title text : GoString) :
    pasteURL { w with clientDo := fun _ => none } title text = none ∧
    messageCreate offlineWorld zeroRand botSession (messageOf "!cw just this".toList) botConfig =
      ⟨[Action.ChannelMessageDelete "7".toList "100".toList], true⟩ ∧
    (messageCreate onlineWorld zeroRand botSession (messageOf "!cw just this".toList)
      botConfig).replies = 1 :=
  ⟨rfl, by decide, by decide⟩

end SpoilerBot
